import Mathlib

/-!
Verification of the AVA-Kinetics multi-annotator proposal-generation pipeline.

Each Lean definition is a shallow embedding of a Python function of the
repository, translated statement by statement from the source:

* `Aggregator`      — `tools/create_proposals_from_tracks.py`, the record loop of
                      `generate_proposals_from_tracks` (lines 40-51).
* `Naming`          — the keyframe naming scheme of
                      `tools/person_tracker.py` (line 84) and the clip-id parser of
                      `tools/proposals_to_cvat.py` (line 78).
* `PersonTracker`   — `tools/person_tracker.py`, `_parse_detections`.
* `KeyframeSelector`— `tools/keyframe_selector.py`, `_z_normalize` and
                      `select_best_keyframe`.

Python floats are modelled as exact rationals where the code only adds,
multiplies and compares, and as real numbers where the code takes a square
root (`np.std`).  Python dictionaries keyed by strings are modelled as total
functions with default value `[]` (the `defaultdict(list)` of the source).
-/

/-- Numpy boolean-mask indexing `a[mask]`: keep the elements of `l` whose
mask entry is `true`.  Numpy requires the mask to have the length of the
array; the model zips (truncating), and every theorem that uses it carries
the matching length hypotheses. -/
def boolIndex {α : Type} (l : List α) (mask : List Bool) : List α :=
  (l.zip mask).filterMap (fun p => if p.2 then some p.1 else none)

namespace Aggregator

/-- One detection record as read from a keyframe JSON file.  Each field is
read with `dict.get`, hence absent keys yield `none`
(`create_proposals_from_tracks.py` lines 41-44). -/
structure DetRecord where
  video_id : Option String
  frame : Option String
  bbox : Option (List ℚ)
  track_id : Option ℚ

/-- Python truthiness of the value read for a string field: `None` and the
empty string are falsy. -/
def truthyStr : Option String → Bool
  | none => false
  | some s => decide (s ≠ "")

/-- Python truthiness of the value read for the bbox field: `None` and the
empty list are falsy. -/
def truthyList : Option (List ℚ) → Bool
  | none => false
  | some l => decide (l ≠ [])

/-- Python truthiness of the value read for the numeric track-id field:
`None` and `0` are falsy. -/
def truthyNum : Option ℚ → Bool
  | none => false
  | some q => decide (q ≠ 0)

/-- The guard `all([video_id, frame_name, bbox, track_id])` of line 46:
every one of the four values must be truthy, not merely present. -/
def recordTruthy (r : DetRecord) : Bool :=
  truthyStr r.video_id && truthyStr r.frame && truthyList r.bbox && truthyNum r.track_id

/-- The proposal entry `[bbox[0], bbox[1], bbox[2], bbox[3], 1.0, track_id]`
built on line 50, for a bbox with at least four entries — there the `getD`
reads are exact.  On a truthy bbox with fewer than four entries the source
raises `IndexError` instead of building an entry; that raising path is
modelled by `processRecordE` below, which guards the bbox length and never
applies this entry builder outside its faithful region. -/
def proposal_entry (r : DetRecord) : List ℚ :=
  [(r.bbox.getD []).getD 0 0, (r.bbox.getD []).getD 1 0,
   (r.bbox.getD []).getD 2 0, (r.bbox.getD []).getD 3 0, 1, r.track_id.getD 0]

/-- The aggregation table `{clip_id: {keyframe_name: [proposals]}}`, modelled
as a total function defaulting to `[]` (the `defaultdict(lambda: defaultdict(list))`
of line 28). -/
def ProposalTable : Type := String → String → List (List ℚ)

/-- The fresh table a run starts from. -/
def emptyTable : ProposalTable := fun _ _ => []

/-- `results_dict[video_id][frame_name].append(entry)` of line 51. -/
def addProposal (t : ProposalTable) (v f : String) (e : List ℚ) : ProposalTable :=
  fun v' f' => if v' = v ∧ f' = f then t v' f' ++ [e] else t v' f'

/-- One iteration of the record loop (lines 40-51) on a record that does not
raise: skip when the truthiness guard fails (`continue`), otherwise append
the proposal entry.  `processRecordE` below is the same iteration with the
`IndexError` path of line 50 made explicit. -/
def processRecord (t : ProposalTable) (r : DetRecord) : ProposalTable :=
  if recordTruthy r then
    addProposal t (r.video_id.getD "") (r.frame.getD "") (proposal_entry r)
  else t

/-- The record loop of `generate_proposals_from_tracks` over the
concatenation of the records of all input JSON files, starting from a fresh
table — the table produced by an execution in which no record raises
(`generate_proposals_from_tracks_run` below carries the abort path). -/
def generate_proposals_from_tracks (recs : List DetRecord) : ProposalTable :=
  recs.foldl processRecord emptyTable

/-- Whether a record survives the guard and lands in cell `(v, f)`. -/
def matchesKey (v f : String) (r : DetRecord) : Bool :=
  recordTruthy r && (r.video_id.getD "" == v) && (r.frame.getD "" == f)

/-- One iteration of the record loop with the error path of line 50 explicit:
a truthy record whose bbox has fewer than four entries makes `bbox[3]` (or an
earlier index) raise `IndexError`; the `try/except` of lines 33-38 wraps only
`json.load`, so the exception escapes the loop and aborts the batch — `none`
models that abort. -/
def processRecordE (t : ProposalTable) (r : DetRecord) : Option ProposalTable :=
  if recordTruthy r then
    if 4 ≤ (r.bbox.getD []).length then
      some (addProposal t (r.video_id.getD "") (r.frame.getD "") (proposal_entry r))
    else none
  else some t

/-- The record loop of `generate_proposals_from_tracks` with the abort path:
`none` when some surviving record raises `IndexError` at line 50, otherwise
the final table. -/
def generate_proposals_from_tracks_run (recs : List DetRecord) : Option ProposalTable :=
  recs.foldlM processRecordE emptyTable

end Aggregator

namespace Naming

/-- Python `str.split(sep)` restricted to a one-character separator, on
strings viewed as character lists: keeps empty parts, and the empty string
splits to `[""]`. -/
def sepSplit (sep : Char) : List Char → List (List Char)
  | [] => [[]]
  | c :: cs =>
    if c = sep then [] :: sepSplit sep cs
    else
      match sepSplit sep cs with
      | [] => [[c]]
      | p :: ps => (c :: p) :: ps

/-- Python `sep.join(parts)` for a one-character separator. -/
def sepJoin (sep : Char) : List (List Char) → List Char
  | [] => []
  | [p] => p
  | p :: q :: ps => p ++ sep :: sepJoin sep (q :: ps)

/-- Decimal digit characters of `n`, most significant first. -/
def decChars (n : ℕ) : List Char :=
  ((Nat.digits 10 n).reverse).map (fun d => Char.ofNat (48 + d))

/-- Python format `f"{n:04d}"` for a natural number: left-pad the decimal
form with zeros to width 4 (note `f"{0:04d}" = "0000"` and wider numbers are
kept whole). -/
def pad4 (n : ℕ) : List Char :=
  List.replicate (4 - (decChars n).length) (Char.ofNat 48) ++ decChars n

/-- The characters of `"frame"`. -/
def frameChars : List Char := [Char.ofNat 102, Char.ofNat 114, Char.ofNat 97, Char.ofNat 109, Char.ofNat 101]

/-- The characters of `".jpg"`. -/
def jpgChars : List Char := [Char.ofNat 46, Char.ofNat 106, Char.ofNat 112, Char.ofNat 103]

/-- The underscore character. -/
def usc : Char := Char.ofNat 95

/-- `keyframe_name = f"{self.video_id}_frame_{middle_frame_idx:04d}.jpg"`
(`person_tracker.py` line 84). -/
def keyframe_name (video_id : List Char) (idx : ℕ) : List Char :=
  video_id ++ usc :: (frameChars ++ usc :: (pad4 idx ++ jpgChars))

/-- `clip_id = '_'.join(frame_name.split('_')[:-2])`
(`proposals_to_cvat.py` line 78). -/
def clip_id_of (frame_name : List Char) : List Char :=
  sepJoin usc ((sepSplit usc frame_name).take ((sepSplit usc frame_name).length - 2))

end Naming

namespace PersonTracker

/-- The detection object handed to `PersonTracker._parse_detections`
(`person_tracker.py` lines 33-53).  The code only tests presence of the
`xyxy` attribute (`hasattr(dets, 'xyxy')`); `confidence` and `class_id` are
read unconditionally, so they are plain lists here. -/
structure Dets where
  xyxy : Option (List (ℚ × ℚ × ℚ × ℚ))
  confidence : List ℚ
  class_id : List ℤ

/-- `PersonTracker._parse_detections`: return the person-class detections at
or above the confidence threshold as rows `[x1, y1, x2, y2, score]`, or an
empty `(0, 5)` array when `xyxy` is absent, there are zero labels, or no
detection passes the filter (lines 35-53). -/
def _parse_detections (pid : ℤ) (conf : ℚ) (d : Dets) : List (ℚ × ℚ × ℚ × ℚ × ℚ) :=
  match d.xyxy with
  | none => []
  | some boxes =>
    if d.class_id.length = 0 then []
    else
      let mask := List.zipWith (fun l s => l == pid && decide (conf ≤ s)) d.class_id d.confidence
      let person_boxes := boolIndex boxes mask
      let person_scores := boolIndex d.confidence mask
      if person_boxes.length = 0 then []
      else
        List.zipWith (fun (b : ℚ × ℚ × ℚ × ℚ) s => (b.1, b.2.1, b.2.2.1, b.2.2.2, s))
          person_boxes person_scores

end PersonTracker

namespace KeyframeSelector

/-- A detection object returned by `self.model.predict` as consumed by
`select_best_keyframe` (`keyframe_selector.py`).  Each field is `none` when
the attribute is absent or `None` (the code guards `class_id` and `xyxy`
with `hasattr`/`is not None` checks before use). -/
structure Dets where
  class_id : Option (List ℤ)
  confidence : Option (List ℚ)
  xyxy : Option (List (ℚ × ℚ × ℚ × ℚ))

/-- The fixed context of a `KeyframeSelector` instance together with the
opaque vision primitives: `predict` models `self.model.predict(frame, 0.5)`
and `flowMag` models Farneback optical flow followed by `cartToPolar`
magnitude (a row-major grid) between two frames.  Frames are opaque values
of type `F`; the BGR/RGB/gray colour conversions are identities at this
level of abstraction. -/
structure Env (F : Type) where
  person_class_id : ℤ
  predict : F → Dets
  flowMag : F → F → List (List ℚ)

/-- The `cv2.VideoCapture` state visible to `select_best_keyframe`: whether
it opened, the reported frame count and fps, and the frame obtained by
seeking to an index and reading (`none` models a failed `cap.read()`). -/
structure VideoCapture (F : Type) where
  opened : Bool
  total_frames : ℕ
  fps : ℚ
  read : ℕ → Option F

/-- The keyword parameters of `select_best_keyframe`. -/
structure SelectParams where
  center_window_secs : ℚ
  candidate_stride : ℕ
  w_motion : ℝ
  w_confidence : ℝ

/-- The default parameter values of the Python signature
(`center_window_secs=4.0, candidate_stride=3, w_motion=0.7, w_confidence=0.3`). -/
noncomputable def defaultParams : SelectParams := ⟨4, 3, 7/10, 3/10⟩

/-- Python `int(x)` / numpy `astype(int)`: truncation toward zero. -/
def pytrunc (q : ℚ) : ℤ := if 0 ≤ q then ⌊q⌋ else ⌈q⌉

/-- Python list slice `l[a:b]` with full negative-index semantics: a
negative bound counts from the end, then both bounds are clamped to
`[0, len(l)]`. -/
def pyslice {α : Type} (l : List α) (a b : ℤ) : List α :=
  let n : ℤ := l.length
  let lo := (if a < 0 then max 0 (n + a) else min a n).toNat
  let hi := (if b < 0 then max 0 (n + b) else min b n).toNat
  (l.take hi).drop lo

/-- `fps = cap.get(CAP_PROP_FPS); if fps == 0: fps = 30` (lines 50-51). -/
def fpsEff {F : Type} (cap : VideoCapture F) : ℚ :=
  if cap.fps = 0 then 30 else cap.fps

/-- `middle_frame = total_frames // 2` (line 53). -/
def middle_frame {F : Type} (cap : VideoCapture F) : ℕ := cap.total_frames / 2

/-- `window_half_frames = int(center_window_secs / 2 * fps)` (line 54). -/
def window_half_frames {F : Type} (cap : VideoCapture F) (p : SelectParams) : ℤ :=
  pytrunc (p.center_window_secs / 2 * fpsEff cap)

/-- `start_frame = max(0, middle_frame - window_half_frames)` (line 55). -/
def start_frame {F : Type} (cap : VideoCapture F) (p : SelectParams) : ℤ :=
  max 0 ((middle_frame cap : ℤ) - window_half_frames cap p)

/-- `end_frame = min(total_frames, middle_frame + window_half_frames)` (line 56). -/
def end_frame {F : Type} (cap : VideoCapture F) (p : SelectParams) : ℤ :=
  min (cap.total_frames : ℤ) ((middle_frame cap : ℤ) + window_half_frames cap p)

/-- `candidate_indices = np.array(range(start_frame, end_frame, candidate_stride))`
(line 58), for a positive stride; `start_frame` is never negative thanks to
the `max(0, ...)`. -/
def candidate_indices {F : Type} (cap : VideoCapture F) (p : SelectParams) : List ℕ :=
  (List.range
      (((end_frame cap p - start_frame cap p).toNat + p.candidate_stride - 1) /
        p.candidate_stride)).map
    (fun i => (start_frame cap p).toNat + p.candidate_stride * i)

/-- The frames successfully read at the candidate indices, in order
(lines 64-72): a failed `cap.read()` is silently dropped. -/
def framesOf {F : Type} (cap : VideoCapture F) (p : SelectParams) : List F :=
  (candidate_indices cap p).filterMap cap.read

/-- `person_mask = (dets.class_id == person_class_id)` guarded by the
`hasattr`/`is not None` check of line 81 (`np.zeros(0)` otherwise). -/
def person_mask (pid : ℤ) (d : Dets) : List Bool :=
  match d.class_id with
  | none => []
  | some cs => cs.map (fun c => c == pid)

/-- The per-frame confidence score of lines 81-87: the sum of the detector
confidences over person-class detections when `class_id` is usable, the
`confidence` attribute exists and the mask is non-empty somewhere, else 0. -/
def confidence_score (pid : ℤ) (d : Dets) : ℚ :=
  match d.class_id with
  | none => 0
  | some cs =>
    match d.confidence with
    | none => 0
    | some conf =>
      if (cs.map (fun c => c == pid)).any id then
        (boolIndex conf (cs.map (fun c => c == pid))).sum
      else 0

/-- `confidence_scores` accumulated over the read frames (line 87). -/
def confidence_scores {F : Type} (env : Env F) (cap : VideoCapture F)
    (p : SelectParams) : List ℚ :=
  (framesOf cap p).map (fun f => confidence_score env.person_class_id (env.predict f))

/-- The contribution of one person box to the motion score (lines 99-101):
`box_mag = mag[y1:y2, x1:x2]; if box_mag.size > 0: motion_score += box_mag.mean()`,
with the box coordinates truncated to int by `astype(int)`. -/
def box_motion (mag : List (List ℚ)) (b : ℚ × ℚ × ℚ × ℚ) : ℚ :=
  let cells :=
    ((pyslice mag (pytrunc b.2.1) (pytrunc b.2.2.2)).map
      (fun row => pyslice row (pytrunc b.1) (pytrunc b.2.2.1))).flatten
  if 0 < cells.length then cells.sum / (cells.length : ℚ) else 0

/-- The motion score of one non-first frame (lines 90-103): 0 unless the
frame has usable `xyxy` and a non-empty person mask, else the sum over its
person boxes of the mean flow magnitude inside each box. -/
def motion_of (pid : ℤ) (mag : List (List ℚ)) (d : Dets) : ℚ :=
  match d.xyxy with
  | none => 0
  | some boxes =>
    if (person_mask pid d).any id then
      ((boolIndex boxes (person_mask pid d)).map (box_motion mag)).sum
    else 0

/-- The frame loop of lines 78-104 restricted to the motion side: carry the
previous frame (`prev_gray`), emit 0 for the first frame and
`motion_of` against the previous frame afterwards. -/
def motion_go {F : Type} (env : Env F) : Option F → List F → List ℚ
  | _, [] => []
  | none, f :: fs => 0 :: motion_go env (some f) fs
  | some prev, f :: fs =>
      motion_of env.person_class_id (env.flowMag prev f) (env.predict f) ::
        motion_go env (some f) fs

/-- `motion_scores` accumulated over the read frames. -/
def motion_scores {F : Type} (env : Env F) (cap : VideoCapture F)
    (p : SelectParams) : List ℚ :=
  motion_go env none (framesOf cap p)

/-- `np.mean` over the reals (an empty list yields `0/0 = 0` in ℝ where
numpy emits NaN; `_z_normalize` is only applied to the per-frame score
lists, and on the empty list both produce the empty output). -/
noncomputable def mean (l : List ℝ) : ℝ := l.sum / l.length

/-- `np.std`: the square root of the mean squared deviation. -/
noncomputable def std (l : List ℝ) : ℝ :=
  Real.sqrt (mean (l.map (fun x => (x - mean l) ^ 2)))

/-- `KeyframeSelector._z_normalize` (lines 24-31): all zeros when the
standard deviation is below `1e-6`, else `(scores - mean) / std`. -/
noncomputable def z_normalize (l : List ℝ) : List ℝ :=
  if std l < 1/1000000 then l.map (fun _ => 0)
  else l.map (fun x => (x - mean l) / std l)

/-- `combined_scores = w_motion * norm_motion + w_confidence * norm_conf`
(lines 106-109); the exact rational scores enter the float normalization
as real numbers. -/
noncomputable def combined_scores {F : Type} (env : Env F) (cap : VideoCapture F)
    (p : SelectParams) : List ℝ :=
  List.zipWith (fun m c => p.w_motion * m + p.w_confidence * c)
    (z_normalize ((motion_scores env cap p).map (fun (q : ℚ) => (q : ℝ))))
    (z_normalize ((confidence_scores env cap p).map (fun (q : ℚ) => (q : ℝ))))

/-- `tie_breaker_scores = 1.0 - distance_from_middle / (total_frames / 2)`
(lines 111-112). -/
def tie_breaker_scores {F : Type} (cap : VideoCapture F) (p : SelectParams) : List ℚ :=
  (candidate_indices cap p).map
    (fun (i : ℕ) => 1 - |(i : ℚ) - (middle_frame cap : ℚ)| / ((cap.total_frames : ℚ) / 2))

/-- `final_scores = combined_scores + tie_breaker_scores * 1e-6` (line 114). -/
noncomputable def final_scores {F : Type} (env : Env F) (cap : VideoCapture F)
    (p : SelectParams) : List ℝ :=
  List.zipWith (fun (c : ℝ) (t : ℚ) => c + (t : ℝ) * (1/1000000))
    (combined_scores env cap p) (tie_breaker_scores cap p)

/-- The scan of `np.argmax`: best index and value so far, current index,
remaining list; a strictly greater value replaces the best, so ties keep
the earliest index. -/
noncomputable def argmax_go (bi : ℕ) (bv : ℝ) (i : ℕ) : List ℝ → ℕ × ℝ
  | [] => (bi, bv)
  | y :: ys => if bv < y then argmax_go i y (i + 1) ys else argmax_go bi bv (i + 1) ys

/-- `np.argmax`: index of the first occurrence of the maximum (0 on the
empty list, where numpy raises instead; `select_best_keyframe` only calls
it after the emptiness checks). -/
noncomputable def np_argmax : List ℝ → ℕ
  | [] => 0
  | x :: xs => (argmax_go 0 x 1 xs).1

/-- One reformatted detection `{"track_id": i + 1, "bbox": [...]}` of
line 137. -/
structure FinalDet where
  track_id : ℕ
  bbox : ℚ × ℚ × ℚ × ℚ
deriving DecidableEq

/-- The final-detection block of lines 132-137: guarded only by the `xyxy`
check; the source then reads `best_dets.class_id` and
`best_dets.confidence` without a presence check and would raise
`AttributeError` when either is `None` — the model returns `[]` on that
(otherwise-crashing) branch, and the theorems below assume both present. -/
def final_detections (pid : ℤ) (d : Dets) : List FinalDet :=
  match d.xyxy with
  | none => []
  | some boxes =>
    match d.class_id, d.confidence with
    | some cs, some conf =>
      if (cs.map (fun c => c == pid)).any id then
        (List.zip (boolIndex boxes (cs.map (fun c => c == pid)))
            (boolIndex conf (cs.map (fun c => c == pid)))).enum.map
          (fun q => ⟨q.1 + 1, q.2.1⟩)
      else []
    | _, _ => []

/-- `KeyframeSelector.select_best_keyframe` (lines 33-139): `none` models
the four `return None` sites (video not opened, empty candidate window, no
readable frame, empty score vector); otherwise the frame, original frame
index and reformatted detections of the argmax candidate are returned. -/
noncomputable def select_best_keyframe {F : Type} [Inhabited F] (env : Env F)
    (cap : VideoCapture F) (p : SelectParams) : Option (F × ℕ × List FinalDet) :=
  if cap.opened = false then none
  else if (candidate_indices cap p).length = 0 then none
  else if (framesOf cap p).length = 0 then none
  else if (final_scores env cap p).length = 0 then none
  else
    some ((framesOf cap p).getD (np_argmax (final_scores env cap p)) default,
      (candidate_indices cap p).getD (np_argmax (final_scores env cap p)) 0,
      final_detections env.person_class_id
        (((framesOf cap p).map env.predict).getD (np_argmax (final_scores env cap p))
          ⟨none, none, none⟩))

/-- A one-frame test video: opened, 1 reported frame, fps 0 (forced to 30),
every read succeeds. -/
def capOne : VideoCapture Unit := ⟨true, 1, 0, fun _ => some ()⟩

/-- A test environment whose detector finds nothing. -/
def unitEnv : Env Unit := ⟨1, fun _ => ⟨none, none, none⟩, fun _ _ => []⟩

/-- Modelled from the spec: "`motion_score` = mean optical-flow magnitude,
restricted to the union of person bounding boxes" — the mean of the
magnitude grid over the set of positions lying inside at least one
(truncated) person box, for comparison with the code's per-box accumulation
`motion_of`. -/
def spec_union_motion (mag : List (List ℚ)) (boxes : List (ℚ × ℚ × ℚ × ℚ)) : ℚ :=
  let inU : ℕ → ℕ → Bool := fun r c =>
    boxes.any (fun b =>
      decide (pytrunc b.2.1 ≤ (r : ℤ)) && decide ((r : ℤ) < pytrunc b.2.2.2) &&
        decide (pytrunc b.1 ≤ (c : ℤ)) && decide ((c : ℤ) < pytrunc b.2.2.1))
  let cells :=
    ((List.range mag.length).map (fun r =>
      ((List.range ((mag.getD r []).length)).filter (fun c => inU r c)).map
        (fun c => (mag.getD r []).getD c 0))).flatten
  if 0 < cells.length then cells.sum / (cells.length : ℚ) else 0

/-- A detection set with two adjacent unit person boxes. -/
def dets2 : Dets := ⟨some [1, 1], some [1, 1], some [(0, 0, 1, 1), (1, 0, 2, 1)]⟩

/-- A test environment over frames numbered by ℕ: frame 0 has no
detections, every later frame has the two person boxes of `dets2`, and the
flow magnitude between any two frames is the 1×2 grid `[[1, 3]]`. -/
def env2 : Env ℕ := ⟨1, fun f => if f = 0 then ⟨none, none, none⟩ else dets2, fun _ _ => [[1, 3]]⟩

/-- A two-frame test video (fps 1) whose reads all succeed. -/
def cap2 : VideoCapture ℕ := ⟨true, 2, 1, fun i => some i⟩

/-- Stride-1 parameters so that both frames of `cap2` become candidates. -/
noncomputable def params2 : SelectParams := ⟨4, 1, 7/10, 3/10⟩

/-- A detection set with one person detection. -/
def detsW : Dets := ⟨some [1], some [2], some [(0, 0, 1, 1)]⟩

/-- A test environment whose detector always reports `detsW`. -/
def envW : Env Unit := ⟨1, fun _ => detsW, fun _ _ => []⟩

end KeyframeSelector

theorem boolIndex_nil {α : Type} (mask : List Bool) : boolIndex ([] : List α) mask = [] := by
  simp [boolIndex]

theorem boolIndex_nil_mask {α : Type} (l : List α) : boolIndex l [] = [] := by
  simp [boolIndex]

theorem boolIndex_cons {α : Type} (x : α) (xs : List α) (m : Bool) (ms : List Bool) :
    boolIndex (x :: xs) (m :: ms) =
      if m then x :: boolIndex xs ms else boolIndex xs ms := by
  by_cases hm : m <;> simp [boolIndex, hm]

namespace Aggregator

theorem processRecord_apply (t : ProposalTable) (r : DetRecord) (v f : String) :
    processRecord t r v f =
      t v f ++ (if matchesKey v f r then [proposal_entry r] else []) := by
  by_cases hr : recordTruthy r
  · have hL : processRecord t r v f =
        if v = r.video_id.getD "" ∧ f = r.frame.getD "" then
          t v f ++ [proposal_entry r]
        else t v f := by
      simp [processRecord, hr, addProposal]
    rw [hL]
    by_cases hv : v = r.video_id.getD ""
    · by_cases hf : f = r.frame.getD ""
      · have hm : matchesKey v f r = true := by simp [matchesKey, hr, hv.symm, hf.symm]
        rw [if_pos ⟨hv, hf⟩, hm]
        simp
      · have hf2 : ¬ r.frame.getD "" = f := fun h => hf h.symm
        have hm : matchesKey v f r = false := by simp [matchesKey, hf2]
        rw [if_neg (fun hand => hf hand.2), hm]
        simp
    · have hv2 : ¬ r.video_id.getD "" = v := fun h => hv h.symm
      have hm : matchesKey v f r = false := by simp [matchesKey, hv2]
      rw [if_neg (fun hand => hv hand.1), hm]
      simp
  · simp [processRecord, matchesKey, hr]

theorem foldl_processRecord_apply (recs : List DetRecord) (t : ProposalTable)
    (v f : String) :
    (recs.foldl processRecord t) v f =
      t v f ++ (recs.filter (matchesKey v f)).map proposal_entry := by
  induction recs generalizing t with
  | nil => simp
  | cons r rs ih =>
    rw [List.foldl_cons, ih, processRecord_apply]
    by_cases h : matchesKey v f r <;> simp [h]

theorem generate_apply (recs : List DetRecord) (v f : String) :
    generate_proposals_from_tracks recs v f =
      (recs.filter (matchesKey v f)).map proposal_entry := by
  rw [generate_proposals_from_tracks, foldl_processRecord_apply]
  simp [emptyTable]

/-- Claim C7: aggregation is deterministic and idempotent across runs.  Each
run is the pure fold `generate_proposals_from_tracks` started from the fresh
`emptyTable`, so two runs on the same record list are the same term; the
theorem pins down the content of every cell of the resulting table: cell
`(v, f)` holds exactly one proposal entry per surviving input record with
that clip id and frame name, in input order — no accumulation and no
duplication can survive from a previous run. -/

theorem C7_aggregation_deterministic (recs : List DetRecord) (v f : String) :
    generate_proposals_from_tracks recs v f =
      (recs.filter (matchesKey v f)).map proposal_entry :=
  generate_apply recs v f

theorem run_eq_some_of_noRaise :
    ∀ (recs : List DetRecord) (t : ProposalTable),
      (∀ s ∈ recs, recordTruthy s = true → 4 ≤ (s.bbox.getD []).length) →
      List.foldlM processRecordE t recs = some (recs.foldl processRecord t) := by
  intro recs
  induction recs with
  | nil => intro t _; rfl
  | cons s rs ih =>
    intro t h
    have hrest : ∀ x ∈ rs, recordTruthy x = true → 4 ≤ (x.bbox.getD []).length :=
      fun x hx => h x (List.mem_cons_of_mem s hx)
    have hstep : processRecordE t s = some (processRecord t s) := by
      by_cases hs : recordTruthy s
      · have h4 := h s (List.mem_cons_self s rs) hs
        simp [processRecordE, processRecord, hs, h4]
      · simp [processRecordE, processRecord, hs]
    rw [List.foldlM_cons, hstep, List.foldl_cons]
    exact ih (processRecord t s) hrest

/-- Claim C1 (counterexample): two records refute the original claim.  The
record `⟨"v", "f", [1,2,3,4], track_id 0⟩` has every field present — the
claim says its proposal `[1,2,3,4,1.0,0]` is appended — yet the guard
`all([...])` of line 46 tests Python truthiness, `0` is falsy, and the
record is skipped: the cell stays empty.  And the record
`⟨"v", "f", [5], track_id 7⟩` is present and truthy in all four fields, so
the claim says it is appended and the batch continues, but its bbox has one
entry: line 50 raises `IndexError` (the `try/except` covers only
`json.load`) and the batch aborts. -/
theorem C1_counterexample :
    generate_proposals_from_tracks
        [⟨some "v", some "f", some [1, 2, 3, 4], some 0⟩] "v" "f" = [] ∧
      ([] : List (List ℚ)) ≠ [[1, 2, 3, 4, 1, 0]] ∧
      generate_proposals_from_tracks_run
        [⟨some "v", some "f", some [5], some 7⟩] = none := by
  refine ⟨?_, by simp, ?_⟩
  · rw [generate_apply]
    rfl
  · rfl

/-- Claim C1 (amended): a record is skipped exactly when one of its four
fields is missing or Python-falsy (empty clip id or frame name string, empty
bbox list, or `track_id = 0`), and the batch continues past it; a surviving
record whose bbox has at least four entries contributes exactly the entry
`[x1, y1, x2, y2, 1.0, track_id]` to `table[clip_id][frame_name]` and the
batch continues; but a surviving record whose truthy bbox has fewer than
four entries raises `IndexError` at line 50 — uncaught, since the
`try/except` of lines 33-38 covers only `json.load` — and the batch is
aborted. -/
theorem C1_skip_append_or_abort (pre post : List DetRecord) (r : DetRecord) :
    (recordTruthy r = false →
      generate_proposals_from_tracks_run (pre ++ r :: post) =
        generate_proposals_from_tracks_run (pre ++ post)) ∧
    (recordTruthy r = true → 4 ≤ (r.bbox.getD []).length →
      (∀ s ∈ pre, recordTruthy s = true → 4 ≤ (s.bbox.getD []).length) →
      ∃ tbl tbl0, generate_proposals_from_tracks_run (pre ++ [r]) = some tbl ∧
        generate_proposals_from_tracks_run pre = some tbl0 ∧
        ∀ v f, tbl v f =
          tbl0 v f ++ (if matchesKey v f r then [proposal_entry r] else [])) ∧
    (recordTruthy r = true → (r.bbox.getD []).length < 4 →
      (∀ s ∈ pre, recordTruthy s = true → 4 ≤ (s.bbox.getD []).length) →
      generate_proposals_from_tracks_run (pre ++ r :: post) = none) := by
  refine ⟨?_, ?_, ?_⟩
  · intro hr
    rw [generate_proposals_from_tracks_run, generate_proposals_from_tracks_run,
      List.foldlM_append, List.foldlM_append]
    cases hpre : List.foldlM processRecordE emptyTable pre with
    | none => rfl
    | some t =>
      show List.foldlM processRecordE t (r :: post) = List.foldlM processRecordE t post
      rw [List.foldlM_cons]
      have hstep : processRecordE t r = some t := by simp [processRecordE, hr]
      rw [hstep]
      rfl
  · intro htr h4 hpre
    have hall : ∀ s ∈ pre ++ [r], recordTruthy s = true → 4 ≤ (s.bbox.getD []).length := by
      intro s hs htru
      rcases List.mem_append.mp hs with hm | hm
      · exact hpre s hm htru
      · have hsr := List.mem_singleton.mp hm
        subst hsr
        exact h4
    refine ⟨(pre ++ [r]).foldl processRecord emptyTable,
      pre.foldl processRecord emptyTable,
      run_eq_some_of_noRaise (pre ++ [r]) emptyTable hall,
      run_eq_some_of_noRaise pre emptyTable hpre, ?_⟩
    intro v f
    rw [List.foldl_append, List.foldl_cons, List.foldl_nil, processRecord_apply]
  · intro htr h4 hpre
    rw [generate_proposals_from_tracks_run, List.foldlM_append,
      run_eq_some_of_noRaise pre emptyTable hpre]
    show List.foldlM processRecordE (pre.foldl processRecord emptyTable) (r :: post) = none
    rw [List.foldlM_cons]
    have hnle : ¬ 4 ≤ (r.bbox.getD []).length := not_le.mpr h4
    have hstep : processRecordE (pre.foldl processRecord emptyTable) r = none := by
      simp [processRecordE, htr, hnle]
    rw [hstep]
    rfl

/-- Witness for the amended claim C1: a surviving record with a full bbox
appends exactly its proposal entry and the batch continues (the run returns
a table). -/
theorem C1_skip_append_or_abort_witness :
    ∃ tbl, generate_proposals_from_tracks_run
        [⟨some "v", some "f", some [1, 2, 3, 4], some 5⟩] = some tbl ∧
      tbl "v" "f" = [[1, 2, 3, 4, 1, 5]] := by
  obtain ⟨tbl, tbl0, hrun, hrun0, hcell⟩ :=
    (C1_skip_append_or_abort [] []
        ⟨some "v", some "f", some [1, 2, 3, 4], some 5⟩).2.1
      (by decide) (by decide) (by intro s hs; simp at hs)
  refine ⟨tbl, hrun, ?_⟩
  rw [hcell "v" "f"]
  have h0 : some tbl0 = some emptyTable := by rw [← hrun0]; rfl
  rw [Option.some.inj h0]
  rfl

end Aggregator

namespace Naming

theorem sepSplit_ne_nil (sep : Char) (s : List Char) : sepSplit sep s ≠ [] := by
  cases s with
  | nil => simp [sepSplit]
  | cons c cs =>
    by_cases hc : c = sep
    · simp [sepSplit, hc]
    · rcases h : sepSplit sep cs with _ | ⟨p, ps⟩ <;> simp [sepSplit, hc, h]

theorem sepSplit_append (sep : Char) (u v : List Char) :
    sepSplit sep (u ++ sep :: v) = sepSplit sep u ++ sepSplit sep v := by
  induction u with
  | nil => simp [sepSplit]
  | cons c cs ih =>
    by_cases hc : c = sep
    · simp only [List.cons_append, sepSplit, if_pos hc, ih, List.append_eq]
    · rcases h : sepSplit sep cs with _ | ⟨p, ps⟩
      · exact absurd h (sepSplit_ne_nil sep cs)
      · have h2 : sepSplit sep (cs ++ sep :: v) = p :: (ps ++ sepSplit sep v) := by
          rw [ih, h]; simp
        simp only [List.cons_append, sepSplit, if_neg hc, h, List.append_eq, h2]

theorem sepSplit_no_sep (sep : Char) (u : List Char) (h : sep ∉ u) :
    sepSplit sep u = [u] := by
  induction u with
  | nil => rfl
  | cons c cs ih =>
    have hc : ¬ c = sep := fun hcc => h (by simp [hcc])
    have hcs : sep ∉ cs := fun hm => h (List.mem_cons_of_mem _ hm)
    simp [sepSplit, hc, ih hcs]

theorem sepJoin_sepSplit (sep : Char) (s : List Char) :
    sepJoin sep (sepSplit sep s) = s := by
  induction s with
  | nil => rfl
  | cons c cs ih =>
    rcases h : sepSplit sep cs with _ | ⟨p, ps⟩
    · exact absurd h (sepSplit_ne_nil sep cs)
    · rw [h] at ih
      by_cases hc : c = sep
      · subst hc
        simp [sepSplit, sepJoin, h, ih]
      · cases ps with
        | nil => simp_all [sepSplit, sepJoin, h]
        | cons q qs =>
          simp only [sepSplit, if_neg hc, h, sepJoin] at ih ⊢
          rw [← ih]
          simp

theorem usc_not_mem_decChars (n : ℕ) : usc ∉ decChars n := by
  intro hm
  rcases List.mem_map.mp hm with ⟨d, hd, hchar⟩
  have hd10 : d < 10 := Nat.digits_lt_base (by norm_num) (List.mem_reverse.mp hd)
  interval_cases d <;> revert hchar <;> decide

theorem usc_not_mem_pad4 (n : ℕ) : usc ∉ pad4 n := by
  intro hm
  rcases List.mem_append.mp hm with hrep | hdec
  · have := List.eq_of_mem_replicate hrep
    revert this; decide
  · exact usc_not_mem_decChars n hdec

theorem usc_not_mem_tail (idx : ℕ) : usc ∉ pad4 idx ++ jpgChars := by
  intro hm
  rcases List.mem_append.mp hm with h | h
  · exact usc_not_mem_pad4 idx h
  · revert h; decide

/-- Claim C9: the clip-id parser `'_'.join(frame_name.split('_')[:-2])` of
`proposals_to_cvat.py` recovers exactly the original `video_id` from every
keyframe name `f"{video_id}_frame_{idx:04d}.jpg"` produced by
`PersonTracker`, including when `video_id` itself contains underscores: the
suffix contributes exactly two underscore-separated parts, which the parser
drops before re-joining. -/
theorem C9_keyframe_name_roundtrip (video_id : List Char) (idx : ℕ) :
    clip_id_of (keyframe_name video_id idx) = video_id := by
  have hsplit : sepSplit usc (keyframe_name video_id idx) =
      sepSplit usc video_id ++ [frameChars, pad4 idx ++ jpgChars] := by
    rw [keyframe_name, sepSplit_append, sepSplit_append,
      sepSplit_no_sep usc frameChars (by decide),
      sepSplit_no_sep usc (pad4 idx ++ jpgChars) (usc_not_mem_tail idx)]
    simp
  rw [clip_id_of, hsplit]
  have hlen : (sepSplit usc video_id ++ [frameChars, pad4 idx ++ jpgChars]).length - 2 =
      (sepSplit usc video_id).length := by simp
  rw [hlen, List.take_left, sepJoin_sepSplit]

end Naming

namespace PersonTracker

theorem parse_core (pid : ℤ) (conf : ℚ) :
    ∀ (labels : List ℤ) (boxes : List (ℚ × ℚ × ℚ × ℚ)) (scores : List ℚ),
      boxes.length = labels.length → scores.length = labels.length →
      List.zipWith (fun (b : ℚ × ℚ × ℚ × ℚ) s => (b.1, b.2.1, b.2.2.1, b.2.2.2, s))
          (boolIndex boxes (List.zipWith (fun l s => l == pid && decide (conf ≤ s)) labels scores))
          (boolIndex scores (List.zipWith (fun l s => l == pid && decide (conf ≤ s)) labels scores)) =
        ((labels.zip (boxes.zip scores)).filter
            (fun p => p.1 == pid && decide (conf ≤ p.2.2))).map
          (fun p => (p.2.1.1, p.2.1.2.1, p.2.1.2.2.1, p.2.1.2.2.2, p.2.2)) := by
  intro labels
  induction labels with
  | nil =>
    intro boxes scores hb hs
    rw [List.length_eq_zero.mp hb, List.length_eq_zero.mp hs]
    simp [boolIndex]
  | cons l ls ih =>
    intro boxes scores hb hs
    cases boxes with
    | nil => simp at hb
    | cons b bs =>
      cases scores with
      | nil => simp at hs
      | cons s ss =>
        simp only [List.length_cons, Nat.succ_inj] at hb hs
        have hih := ih bs ss hb hs
        by_cases hcond : (l == pid && decide (conf ≤ s)) = true
        · simp [boolIndex_cons, hcond, List.filter_cons, hih]
        · have hcond' : (l == pid && decide (conf ≤ s)) = false := by
            revert hcond; cases (l == pid && decide (conf ≤ s)) <;> simp
          simp [boolIndex_cons, hcond', List.filter_cons, hih]

/-- Claim C10: `_parse_detections` returns exactly those input detections
whose class equals the configured person class and whose score is at least
the configured confidence threshold, each row being the box coordinates
followed by the score; it returns the empty array when the input has no
`xyxy` attribute, when there are zero labels, and (as a consequence of the
filter) when nothing passes. -/
theorem C10_parse_detections (pid : ℤ) (conf : ℚ) :
    (∀ (scores : List ℚ) (labels : List ℤ),
        _parse_detections pid conf ⟨none, scores, labels⟩ = []) ∧
    (∀ (boxes : List (ℚ × ℚ × ℚ × ℚ)) (scores : List ℚ),
        _parse_detections pid conf ⟨some boxes, scores, []⟩ = []) ∧
    (∀ (boxes : List (ℚ × ℚ × ℚ × ℚ)) (scores : List ℚ) (labels : List ℤ),
        boxes.length = labels.length → scores.length = labels.length →
        _parse_detections pid conf ⟨some boxes, scores, labels⟩ =
          ((labels.zip (boxes.zip scores)).filter
              (fun p => p.1 == pid && decide (conf ≤ p.2.2))).map
            (fun p => (p.2.1.1, p.2.1.2.1, p.2.1.2.2.1, p.2.1.2.2.2, p.2.2))) := by
  refine ⟨fun scores labels => rfl, fun boxes scores => rfl, ?_⟩
  intro boxes scores labels hb hs
  have hcore := parse_core pid conf labels boxes scores hb hs
  by_cases hlen : labels.length = 0
  · rw [List.length_eq_zero.mp hlen] at hb hs ⊢
    rw [List.length_eq_zero.mp hb, List.length_eq_zero.mp hs]
    rfl
  · by_cases hpb : (boolIndex boxes
        (List.zipWith (fun l s => l == pid && decide (conf ≤ s)) labels scores)).length = 0
    · have hlhs : _parse_detections pid conf ⟨some boxes, scores, labels⟩ = [] := by
        simp [_parse_detections, hlen, hpb]
      rw [hlhs]
      rw [List.length_eq_zero.mp hpb, List.zipWith_nil_left] at hcore
      exact hcore
    · simp only [_parse_detections, if_neg hlen, if_neg hpb]
      exact hcore

/-- Witness for claim C10 at a concrete detection set: of three detections,
only the first is person-class with score above threshold. -/
theorem C10_parse_detections_witness :
    _parse_detections 1 1
        ⟨some [(0, 1, 2, 3), (4, 5, 6, 7), (8, 9, 10, 11)], [2, 0, 1], [1, 1, 2]⟩ =
      [(0, 1, 2, 3, 2)] := by
  have h := (C10_parse_detections 1 1).2.2
      [(0, 1, 2, 3), (4, 5, 6, 7), (8, 9, 10, 11)] [2, 0, 1] [1, 1, 2]
      (by decide) (by decide)
  rw [h]
  decide

end PersonTracker

namespace KeyframeSelector

theorem z_normalize_length (l : List ℝ) : (z_normalize l).length = l.length := by
  unfold z_normalize
  split <;> rw [List.length_map]

theorem motion_go_length {F : Type} (env : Env F) :
    ∀ (prev : Option F) (fs : List F), (motion_go env prev fs).length = fs.length := by
  intro prev fs
  induction fs generalizing prev with
  | nil => cases prev <;> rfl
  | cons f fs ih => cases prev <;> simp [motion_go, ih]

theorem length_filterMap_of_isSome {α β : Type} (f : α → Option β) :
    ∀ (l : List α), (∀ i ∈ l, (f i).isSome) → (l.filterMap f).length = l.length := by
  intro l
  induction l with
  | nil => intro _; rfl
  | cons i is ih =>
    intro h
    rcases Option.isSome_iff_exists.mp (h i (List.mem_cons_self i is)) with ⟨v, hv⟩
    simp only [List.filterMap_cons, hv, List.length_cons]
    rw [ih (fun j hj => h j (List.mem_cons_of_mem i hj))]

theorem frames_length_of_reads {F : Type} (cap : VideoCapture F) (p : SelectParams)
    (h : ∀ i ∈ candidate_indices cap p, (cap.read i).isSome) :
    (framesOf cap p).length = (candidate_indices cap p).length :=
  length_filterMap_of_isSome cap.read (candidate_indices cap p) h

theorem combined_scores_length {F : Type} (env : Env F) (cap : VideoCapture F)
    (p : SelectParams) :
    (combined_scores env cap p).length = (framesOf cap p).length := by
  unfold combined_scores
  rw [List.length_zipWith, z_normalize_length, z_normalize_length,
    List.length_map, List.length_map]
  unfold motion_scores confidence_scores
  rw [motion_go_length, List.length_map, min_self]

theorem tie_breaker_scores_length {F : Type} (cap : VideoCapture F) (p : SelectParams) :
    (tie_breaker_scores cap p).length = (candidate_indices cap p).length := by
  unfold tie_breaker_scores
  rw [List.length_map]

theorem final_scores_length_of_reads {F : Type} (env : Env F) (cap : VideoCapture F)
    (p : SelectParams) (h : ∀ i ∈ candidate_indices cap p, (cap.read i).isSome) :
    (final_scores env cap p).length = (candidate_indices cap p).length := by
  unfold final_scores
  rw [List.length_zipWith, combined_scores_length, tie_breaker_scores_length,
    frames_length_of_reads cap p h, min_self]

theorem argmax_go_spec :
    ∀ (ys : List ℝ) (bi : ℕ) (bv : ℝ) (i : ℕ),
      (argmax_go bi bv i ys = (bi, bv) ∨
        ∃ k, k < ys.length ∧ argmax_go bi bv i ys = (i + k, ys.getD k 0)) ∧
      bv ≤ (argmax_go bi bv i ys).2 ∧ ∀ y ∈ ys, y ≤ (argmax_go bi bv i ys).2 := by
  intro ys
  induction ys with
  | nil => intro bi bv i; exact ⟨Or.inl rfl, le_refl bv, by simp⟩
  | cons y ys ih =>
    intro bi bv i
    by_cases hlt : bv < y
    · have h := ih i y (i + 1)
      have harg : argmax_go bi bv i (y :: ys) = argmax_go i y (i + 1) ys := by
        simp [argmax_go, hlt]
      refine ⟨?_, ?_, ?_⟩
      · rcases h.1 with hcase | ⟨k, hk, hcase⟩
        · exact Or.inr ⟨0, by simp, by rw [harg, hcase]; simp⟩
        · refine Or.inr ⟨k + 1, by simpa using hk, ?_⟩
          rw [harg, hcase]
          have hidx : i + 1 + k = i + (k + 1) := by omega
          rw [hidx]
          simp [List.getD_cons_succ]
      · rw [harg]; exact le_of_lt (lt_of_lt_of_le hlt h.2.1)
      · intro z hz
        rw [harg]
        rcases List.mem_cons.mp hz with hz0 | hzm
        · rw [hz0]; exact h.2.1
        · exact h.2.2 z hzm
    · have h := ih bi bv (i + 1)
      have harg : argmax_go bi bv i (y :: ys) = argmax_go bi bv (i + 1) ys := by
        simp [argmax_go, hlt]
      refine ⟨?_, ?_, ?_⟩
      · rcases h.1 with hcase | ⟨k, hk, hcase⟩
        · exact Or.inl (by rw [harg, hcase])
        · refine Or.inr ⟨k + 1, by simpa using hk, ?_⟩
          rw [harg, hcase]
          have hidx : i + 1 + k = i + (k + 1) := by omega
          rw [hidx]
          simp [List.getD_cons_succ]
      · rw [harg]; exact h.2.1
      · intro z hz
        rw [harg]
        rcases List.mem_cons.mp hz with hz0 | hzm
        · rw [hz0]; exact le_trans (not_lt.mp hlt) h.2.1
        · exact h.2.2 z hzm

theorem np_argmax_lt_length (l : List ℝ) (h : l ≠ []) : np_argmax l < l.length := by
  cases l with
  | nil => exact absurd rfl h
  | cons x xs =>
    rcases (argmax_go_spec xs 0 x 1).1 with hcase | ⟨k, hk, hcase⟩
    · simp [np_argmax, hcase]
    · simp only [np_argmax, hcase, List.length_cons]
      omega

theorem getD_np_argmax_eq_snd (x : ℝ) (xs : List ℝ) :
    (x :: xs).getD (np_argmax (x :: xs)) 0 = (argmax_go 0 x 1 xs).2 := by
  rcases (argmax_go_spec xs 0 x 1).1 with hcase | ⟨k, hk, hcase⟩
  · simp [np_argmax, hcase]
  · simp only [np_argmax, hcase]
    have hidx : 1 + k = k + 1 := Nat.add_comm 1 k
    rw [hidx, List.getD_cons_succ]

theorem getD_le_getD_np_argmax (l : List ℝ) (h : l ≠ []) :
    ∀ j, j < l.length → l.getD j 0 ≤ l.getD (np_argmax l) 0 := by
  cases l with
  | nil => exact absurd rfl h
  | cons x xs =>
    intro j hj
    rw [getD_np_argmax_eq_snd]
    cases j with
    | zero => exact (argmax_go_spec xs 0 x 1).2.1
    | succ j =>
      have hjlt : j < xs.length := by simpa using hj
      have hmem : xs.getD j 0 ∈ xs := by
        rw [List.getD_eq_getElem xs 0 hjlt]
        exact List.getElem_mem hjlt
      simpa [List.getD_cons_succ] using (argmax_go_spec xs 0 x 1).2.2 _ hmem

theorem getD_zipWith {α β γ : Type} (f : α → β → γ) (da : α) (db : β) (dc : γ) :
    ∀ (la : List α) (lb : List β) (i : ℕ), i < la.length → i < lb.length →
      (List.zipWith f la lb).getD i dc = f (la.getD i da) (lb.getD i db) := by
  intro la
  induction la with
  | nil => intro lb i h _; simp at h
  | cons a as ih =>
    intro lb i h1 h2
    cases lb with
    | nil => simp at h2
    | cons b bs =>
      cases i with
      | zero => rfl
      | succ i =>
        simp only [List.zipWith_cons_cons, List.getD_cons_succ]
        exact ih bs i (by simpa using h1) (by simpa using h2)

theorem capOne_candidates : candidate_indices capOne defaultParams = [0] := by
  norm_num [candidate_indices, end_frame, start_frame, window_half_frames,
    middle_frame, fpsEff, pytrunc, capOne, defaultParams, List.range_succ]

theorem capOne_frames : framesOf capOne defaultParams = [()] := by
  rw [framesOf, capOne_candidates]
  rfl

theorem z_normalize_singleton (x : ℝ) : z_normalize [x] = [0] := by
  have hm : mean [x] = x := by simp [mean]
  have hs : std [x] = 0 := by simp [std, hm, mean]
  unfold z_normalize
  rw [if_pos (by rw [hs]; norm_num)]
  rfl

theorem capOne_combined : combined_scores unitEnv capOne defaultParams = [0] := by
  have hmot : motion_scores unitEnv capOne defaultParams = [0] := by
    rw [motion_scores, capOne_frames]
    rfl
  have hconf : confidence_scores unitEnv capOne defaultParams = [0] := by
    rw [confidence_scores, capOne_frames]
    rfl
  rw [combined_scores, hmot, hconf]
  have hcast : ([(0:ℚ)].map (fun (q : ℚ) => (q : ℝ))) = [(0:ℝ)] := by simp
  rw [hcast, z_normalize_singleton]
  simp

theorem motion_go_getD_succ {F : Type} [Inhabited F] (env : Env F) :
    ∀ (fs : List F) (prev : Option F) (i : ℕ), i + 1 < fs.length →
      (motion_go env prev fs).getD (i + 1) 0 =
        motion_of env.person_class_id
          (env.flowMag (fs.getD i default) (fs.getD (i + 1) default))
          (env.predict (fs.getD (i + 1) default)) := by
  intro fs
  induction fs with
  | nil => intro prev i h; simp at h
  | cons f fs ih =>
    intro prev i h
    cases i with
    | zero =>
      cases fs with
      | nil => simp at h
      | cons g fs2 =>
        cases prev <;> rfl
    | succ i =>
      have hgo : (motion_go env prev (f :: fs)).getD (i + 1 + 1) 0 =
          (motion_go env (some f) fs).getD (i + 1) 0 := by
        cases prev <;> simp [motion_go, List.getD_cons_succ]
      rw [hgo, ih (some f) i (by simpa using h)]
      simp [List.getD_cons_succ]

theorem cap2_candidates : candidate_indices cap2 params2 = [0, 1] := by
  norm_num [candidate_indices, end_frame, start_frame, window_half_frames,
    middle_frame, fpsEff, pytrunc, cap2, params2, List.range_succ]
  decide

theorem cap2_frames : framesOf cap2 params2 = [0, 1] := by
  rw [framesOf, cap2_candidates]
  rfl

/-- Claim C4: `_z_normalize` maps any score list whose standard deviation is
below `1e-6` to the all-zeros vector, and otherwise returns
`(scores - mean) / std`; in the dividing branch the standard deviation is
at least `1e-6`, hence nonzero — no division by zero and (in this real
model, where floats have no NaN to begin with) no NaN can arise. -/
theorem C4_z_normalize_safe (l : List ℝ) :
    (std l < 1/1000000 → z_normalize l = l.map (fun _ => 0)) ∧
    ((1:ℝ)/1000000 ≤ std l →
      z_normalize l = l.map (fun x => (x - mean l) / std l) ∧ std l ≠ 0) := by
  constructor
  · intro h
    unfold z_normalize
    rw [if_pos h]
  · intro h
    have hnlt : ¬ std l < 1/1000000 := not_lt.mpr h
    refine ⟨by unfold z_normalize; rw [if_neg hnlt], ?_⟩
    intro h0
    rw [h0] at h
    norm_num at h

/-- Witness for claim C4: a constant score list (std 0) normalizes to all
zeros. -/
theorem C4_z_normalize_safe_witness : z_normalize [1, 1] = [0, 0] := by
  have hstd : std [(1:ℝ), 1] = 0 := by
    have hm : mean [(1:ℝ), 1] = 1 := by
      norm_num [mean]
    simp [std, hm, mean]
  have h := (C4_z_normalize_safe [1, 1]).1 (by rw [hstd]; norm_num)
  simpa using h

/-- Claim C5: `select_best_keyframe` returns an explicit `none` — and, being
a total function into `Option`, raises nothing and cannot mix a valid
selection into the failure outcome — whenever the video cannot be opened or
the candidate window holds no frame index. -/
theorem C5_none_on_failure {F : Type} [Inhabited F] (env : Env F)
    (cap : VideoCapture F) (p : SelectParams) :
    (cap.opened = false → select_best_keyframe env cap p = none) ∧
    (candidate_indices cap p = [] → select_best_keyframe env cap p = none) := by
  constructor
  · intro h
    simp [select_best_keyframe, h]
  · intro h
    unfold select_best_keyframe
    by_cases ho : cap.opened = false
    · simp [ho]
    · simp [ho, h, framesOf]

/-- Claim C6: every entry of `combined_scores` equals
`w_motion * norm_motion + w_confidence * norm_conf` at the same position,
where the normalized vectors are the z-normalizations of the per-frame
motion and confidence scores; the default weights are 0.7 and 0.3 and enter
the sum as given, with no renormalization. -/
theorem C6_combined_formula {F : Type} (env : Env F) (cap : VideoCapture F)
    (p : SelectParams) (i : ℕ) (hi : i < (combined_scores env cap p).length) :
    (combined_scores env cap p).getD i 0 =
      p.w_motion *
          (z_normalize ((motion_scores env cap p).map (fun (q : ℚ) => (q : ℝ)))).getD i 0 +
        p.w_confidence *
          (z_normalize ((confidence_scores env cap p).map (fun (q : ℚ) => (q : ℝ)))).getD i 0 ∧
      defaultParams.w_motion = 7/10 ∧ defaultParams.w_confidence = 3/10 := by
  refine ⟨?_, rfl, rfl⟩
  have hb := hi
  rw [combined_scores, List.length_zipWith, lt_min_iff] at hb
  rw [combined_scores]
  exact getD_zipWith _ 0 0 0 _ _ i hb.1 hb.2

/-- Witness for claim C6 on the one-frame test video: both sides evaluate
on the concrete candidate. -/
theorem C6_combined_formula_witness :
    (combined_scores unitEnv capOne defaultParams).getD 0 0 =
      defaultParams.w_motion *
          (z_normalize
            ((motion_scores unitEnv capOne defaultParams).map
              (fun (q : ℚ) => (q : ℝ)))).getD 0 0 +
        defaultParams.w_confidence *
          (z_normalize
            ((confidence_scores unitEnv capOne defaultParams).map
              (fun (q : ℚ) => (q : ℝ)))).getD 0 0 :=
  (C6_combined_formula unitEnv capOne defaultParams 0
    (by rw [combined_scores_length, capOne_frames]; norm_num)).1

theorem getD_map_of_lt {α β : Type} (f : α → β) (d : α) (e : β) :
    ∀ (l : List α) (i : ℕ), i < l.length → (l.map f).getD i e = f (l.getD i d) := by
  intro l
  induction l with
  | nil => intro i h; simp at h
  | cons a as ih =>
    intro i h
    cases i with
    | zero => rfl
    | succ i =>
      simp only [List.map_cons, List.getD_cons_succ]
      exact ih i (by simpa using h)

theorem final_scores_getD {F : Type} (env : Env F) (cap : VideoCapture F)
    (p : SelectParams) (hreads : ∀ i ∈ candidate_indices cap p, (cap.read i).isSome)
    (i : ℕ) (hi : i < (candidate_indices cap p).length) :
    (final_scores env cap p).getD i 0 =
      (combined_scores env cap p).getD i 0 +
        ((1 - |((candidate_indices cap p).getD i 0 : ℚ) - (middle_frame cap : ℚ)| /
            ((cap.total_frames : ℚ) / 2) : ℚ) : ℝ) * (1/1000000) := by
  have hclen : (combined_scores env cap p).length = (candidate_indices cap p).length := by
    rw [combined_scores_length, frames_length_of_reads cap p hreads]
  have htlen := tie_breaker_scores_length cap p
  unfold final_scores
  rw [getD_zipWith _ 0 0 0 _ _ i (by omega) (by omega)]
  unfold tie_breaker_scores
  rw [getD_map_of_lt _ 0 0 _ i hi]

theorem select_some_of {F : Type} [Inhabited F] (env : Env F) (cap : VideoCapture F)
    (p : SelectParams) (hopen : cap.opened = true)
    (hne : candidate_indices cap p ≠ [])
    (hreads : ∀ i ∈ candidate_indices cap p, (cap.read i).isSome) :
    select_best_keyframe env cap p =
      some ((framesOf cap p).getD (np_argmax (final_scores env cap p)) default,
        (candidate_indices cap p).getD (np_argmax (final_scores env cap p)) 0,
        final_detections env.person_class_id
          (((framesOf cap p).map env.predict).getD (np_argmax (final_scores env cap p))
            ⟨none, none, none⟩)) := by
  have h1 : ¬ (cap.opened = false) := by rw [hopen]; simp
  have h2 : ¬ ((candidate_indices cap p).length = 0) := by
    intro h
    exact hne (List.length_eq_zero.mp h)
  have h3 : ¬ ((framesOf cap p).length = 0) := by
    rw [frames_length_of_reads cap p hreads]
    exact h2
  have h4 : ¬ ((final_scores env cap p).length = 0) := by
    rw [final_scores_length_of_reads env cap p hreads]
    exact h2
  simp only [select_best_keyframe, if_neg h1, if_neg h2, if_neg h3, if_neg h4]

/-- Claim C3: `final_scores` adds to each combined score the tie-break term
`(1 - distance_from_midpoint / (total_frames / 2)) * 1e-6`; the selection is
a pure function of the candidate set and scores (hence identical on every
run), and when all combined scores are equal the returned frame index is a
candidate closest to the clip midpoint. -/
theorem C3_tiebreak_midpoint {F : Type} [Inhabited F] (env : Env F)
    (cap : VideoCapture F) (p : SelectParams) (c : ℝ)
    (hopen : cap.opened = true)
    (hne : candidate_indices cap p ≠ [])
    (hreads : ∀ i ∈ candidate_indices cap p, (cap.read i).isSome)
    (hT : 0 < cap.total_frames)
    (heq : ∀ j, j < (combined_scores env cap p).length →
      (combined_scores env cap p).getD j 0 = c) :
    (∀ i, i < (candidate_indices cap p).length →
      (final_scores env cap p).getD i 0 =
        (combined_scores env cap p).getD i 0 +
          ((1 - |((candidate_indices cap p).getD i 0 : ℚ) - (middle_frame cap : ℚ)| /
              ((cap.total_frames : ℚ) / 2) : ℚ) : ℝ) * (1/1000000)) ∧
    (∃ out, select_best_keyframe env cap p = some out ∧
      ∀ j, j < (candidate_indices cap p).length →
        |(out.2.1 : ℚ) - (middle_frame cap : ℚ)| ≤
          |((candidate_indices cap p).getD j 0 : ℚ) - (middle_frame cap : ℚ)|) := by
  have hclen : (combined_scores env cap p).length = (candidate_indices cap p).length := by
    rw [combined_scores_length, frames_length_of_reads cap p hreads]
  have hflen : (final_scores env cap p).length = (candidate_indices cap p).length :=
    final_scores_length_of_reads env cap p hreads
  refine ⟨fun i hi => final_scores_getD env cap p hreads i hi, ?_⟩
  refine ⟨_, select_some_of env cap p hopen hne hreads, ?_⟩
  intro j hj
  have hfne : final_scores env cap p ≠ [] := by
    intro h
    rw [h] at hflen
    exact hne (List.length_eq_zero.mp hflen.symm)
  have hblt : np_argmax (final_scores env cap p) < (candidate_indices cap p).length := by
    rw [← hflen]
    exact np_argmax_lt_length _ hfne
  have hmax := getD_le_getD_np_argmax (final_scores env cap p) hfne j (by omega)
  rw [final_scores_getD env cap p hreads j hj,
    final_scores_getD env cap p hreads _ hblt,
    heq j (by omega), heq _ (by omega)] at hmax
  have htb : ((1 - |((candidate_indices cap p).getD j 0 : ℚ) - (middle_frame cap : ℚ)| /
        ((cap.total_frames : ℚ) / 2) : ℚ) : ℝ) ≤
      ((1 - |((candidate_indices cap p).getD (np_argmax (final_scores env cap p)) 0 : ℚ) -
          (middle_frame cap : ℚ)| / ((cap.total_frames : ℚ) / 2) : ℚ) : ℝ) := by
    have heps : (0:ℝ) < 1/1000000 := by norm_num
    nlinarith [hmax]
  rw [Rat.cast_le] at htb
  have hhalf : (0:ℚ) < (cap.total_frames : ℚ) / 2 := by
    have : (0:ℚ) < (cap.total_frames : ℚ) := by
      exact_mod_cast hT
    linarith
  have hdiv : |((candidate_indices cap p).getD (np_argmax (final_scores env cap p)) 0 : ℚ) -
        (middle_frame cap : ℚ)| / ((cap.total_frames : ℚ) / 2) ≤
      |((candidate_indices cap p).getD j 0 : ℚ) - (middle_frame cap : ℚ)| /
        ((cap.total_frames : ℚ) / 2) := by
    linarith
  exact (div_le_div_iff_of_pos_right hhalf).mp hdiv

/-- Witness for claim C3 on the one-frame test video with all combined
scores equal (to 0). -/
theorem C3_tiebreak_midpoint_witness :
    ∃ out, select_best_keyframe unitEnv capOne defaultParams = some out ∧
      ∀ j, j < (candidate_indices capOne defaultParams).length →
        |(out.2.1 : ℚ) - (middle_frame capOne : ℚ)| ≤
          |((candidate_indices capOne defaultParams).getD j 0 : ℚ) -
            (middle_frame capOne : ℚ)| :=
  (C3_tiebreak_midpoint unitEnv capOne defaultParams 0 rfl
    (by rw [capOne_candidates]; simp)
    (by intro i _; simp [capOne])
    (by norm_num [capOne])
    (by
      intro j hj
      rw [capOne_combined] at hj ⊢
      have hj0 : j = 0 := by simpa using hj
      rw [hj0]
      rfl)).2

/-- Claim C2 (amended): the motion score of the first sampled frame is 0 (it
has no predecessor); the motion score of every later sampled frame is
`motion_of` computed against the immediately preceding sampled frame — the
SUM over the frame's person bounding boxes of the mean optical-flow
magnitude inside each box (not the mean over their union), and 0 when the
frame has no usable `xyxy` or an empty person mask. -/
theorem C2_motion_scores {F : Type} [Inhabited F] (env : Env F)
    (cap : VideoCapture F) (p : SelectParams) :
    (framesOf cap p ≠ [] → (motion_scores env cap p).getD 0 0 = 0) ∧
    (∀ i, i + 1 < (framesOf cap p).length →
      (motion_scores env cap p).getD (i + 1) 0 =
        motion_of env.person_class_id
          (env.flowMag ((framesOf cap p).getD i default)
            ((framesOf cap p).getD (i + 1) default))
          (env.predict ((framesOf cap p).getD (i + 1) default))) := by
  constructor
  · intro h
    rw [motion_scores]
    cases hf : framesOf cap p with
    | nil => exact absurd hf h
    | cons f fs => rfl
  · intro i hi
    exact motion_go_getD_succ env (framesOf cap p) none i hi

/-- Claim C2 (counterexample): on the two-frame test video, frame 1 carries
two adjacent unit person boxes over the flow-magnitude grid `[[1, 3]]`; the
code's motion score is the sum of the two per-box means, `1 + 3 = 4`, while
the mean over the union of the boxes — what the claim states — is
`(1 + 3) / 2 = 2`. -/
theorem C2_motion_scores_counterexample :
    (motion_scores env2 cap2 params2).getD 1 0 = 4 ∧
    spec_union_motion [[1, 3]] [(0, 0, 1, 1), (1, 0, 2, 1)] = 2 ∧ (4 : ℚ) ≠ 2 := by
  have hb1 : box_motion [[1, 3]] (0, 0, 1, 1) = 1 := by
    norm_num [box_motion, pyslice, pytrunc, Int.toNat_ofNat]
  have hb2 : box_motion [[1, 3]] (1, 0, 2, 1) = 3 := by
    have h2 : (2:ℤ).toNat = 2 := rfl
    norm_num [box_motion, pyslice, pytrunc, h2]
  refine ⟨?_, ?_, by norm_num⟩
  · rw [motion_scores, cap2_frames]
    have hgo : motion_go env2 none [0, 1] =
        [0, motion_of 1 (env2.flowMag 0 1) (env2.predict 1)] := rfl
    rw [hgo]
    simp only [List.getD_cons_succ, List.getD_cons_zero]
    have hpred : env2.predict 1 = dets2 := rfl
    have hflow : env2.flowMag 0 1 = [[1, 3]] := rfl
    rw [hpred, hflow]
    have hmot : motion_of 1 [[1, 3]] dets2 =
        box_motion [[1, 3]] (0, 0, 1, 1) + box_motion [[1, 3]] (1, 0, 2, 1) := by
      simp [motion_of, dets2, person_mask, boolIndex]
    rw [hmot, hb1, hb2]
    norm_num
  · norm_num [spec_union_motion, pytrunc, List.range_succ]

/-- Witness for the amended claim C2 on the two-frame test video. -/
theorem C2_motion_scores_witness :
    (motion_scores env2 cap2 params2).getD 0 0 = 0 ∧
    (motion_scores env2 cap2 params2).getD 1 0 =
      motion_of env2.person_class_id
        (env2.flowMag ((framesOf cap2 params2).getD 0 default)
          ((framesOf cap2 params2).getD 1 default))
        (env2.predict ((framesOf cap2 params2).getD 1 default)) :=
  ⟨(C2_motion_scores env2 cap2 params2).1 (by rw [cap2_frames]; simp),
   (C2_motion_scores env2 cap2 params2).2 0 (by rw [cap2_frames]; norm_num)⟩

/-- Witness for claim C5: a capture that failed to open yields `none`. -/
theorem C5_none_on_failure_witness :
    select_best_keyframe (F := Unit)
        ⟨1, fun _ => ⟨none, none, none⟩, fun _ _ => []⟩
        ⟨false, 0, 0, fun _ => none⟩ defaultParams = none :=
  (C5_none_on_failure ⟨1, fun _ => ⟨none, none, none⟩, fun _ _ => []⟩
    ⟨false, 0, 0, fun _ => none⟩ defaultParams).1 rfl

theorem boolIndex_eq_filter {α : Type} (pid : ℤ) :
    ∀ (cs : List ℤ) (xs : List α), xs.length = cs.length →
      boolIndex xs (cs.map (fun c => c == pid)) =
        ((cs.zip xs).filter (fun q => q.1 == pid)).map Prod.snd := by
  intro cs
  induction cs with
  | nil =>
    intro xs h
    rw [List.length_eq_zero.mp h]
    rfl
  | cons c cs ih =>
    intro xs h
    cases xs with
    | nil => simp at h
    | cons x xs2 =>
      simp only [List.length_cons, Nat.succ_inj] at h
      by_cases hc : (c == pid) = true
      · simp [boolIndex_cons, hc, List.filter_cons, ih xs2 h]
      · have hc' : (c == pid) = false := by revert hc; cases (c == pid) <;> simp
        simp [boolIndex_cons, hc', List.filter_cons, ih xs2 h]

theorem filter_zip_length {α β : Type} (pid : ℤ) :
    ∀ (cs : List ℤ) (xs : List α) (ys : List β),
      xs.length = cs.length → ys.length = cs.length →
      ((cs.zip xs).filter (fun q => q.1 == pid)).length =
        ((cs.zip ys).filter (fun q => q.1 == pid)).length := by
  intro cs
  induction cs with
  | nil =>
    intro xs ys hx hy
    rw [List.length_eq_zero.mp hx, List.length_eq_zero.mp hy]
    rfl
  | cons c cs ih =>
    intro xs ys hx hy
    cases xs with
    | nil => simp at hx
    | cons x xs2 =>
      cases ys with
      | nil => simp at hy
      | cons y ys2 =>
        simp only [List.length_cons, Nat.succ_inj] at hx hy
        by_cases hc : (c == pid) = true
        · simp [List.filter_cons, hc, ih xs2 ys2 hx hy]
        · have hc' : (c == pid) = false := by revert hc; cases (c == pid) <;> simp
          simp [List.filter_cons, hc', ih xs2 ys2 hx hy]

theorem zip_enumFrom_map {α β γ : Type} (g : ℕ → α → γ) :
    ∀ (A : List α) (B : List β) (n : ℕ), A.length ≤ B.length →
      ((A.zip B).enumFrom n).map (fun q => g q.1 q.2.1) =
        (A.enumFrom n).map (fun q => g q.1 q.2) := by
  intro A
  induction A with
  | nil => intro B n _; rfl
  | cons a as ih =>
    intro B n h
    cases B with
    | nil => simp at h
    | cons b bs =>
      simp only [List.zip_eq_zipWith] at ih ⊢
      simp only [List.zipWith_cons_cons, List.enumFrom, List.map_cons]
      rw [ih bs (n + 1) (by simpa using h)]

theorem filter_zip_nil_of_no_person {α : Type} (pid : ℤ) (cs : List ℤ) (xs : List α)
    (h : ¬ (cs.map (fun c => c == pid)).any id = true) :
    (cs.zip xs).filter (fun q => q.1 == pid) = [] := by
  rw [List.filter_eq_nil_iff]
  intro q hq
  have hq1 : q.1 ∈ cs := (List.of_mem_zip hq).1
  intro hqp
  exact h (List.any_eq_true.mpr ⟨q.1 == pid, List.mem_map.mpr ⟨q.1, hq1, rfl⟩, hqp⟩)

/-- Claim C8: when `select_best_keyframe` returns a result with the winning
candidate's detections readable (present `class_id`, `confidence`, `xyxy` of
matching lengths), the returned frame index is the winning candidate's
original index in the video, and the returned detection list contains
exactly the person-class detections of the winning frame, the k-th entry
being `{track_id := k + 1, bbox := k-th person box}` — an intra-frame rank,
not a cross-frame identity. -/
theorem C8_selected_detections {F : Type} [Inhabited F] (env : Env F)
    (cap : VideoCapture F) (p : SelectParams)
    (hopen : cap.opened = true)
    (hne : candidate_indices cap p ≠ [])
    (hreads : ∀ i ∈ candidate_indices cap p, (cap.read i).isSome)
    (cs : List ℤ) (conf : List ℚ) (boxes : List (ℚ × ℚ × ℚ × ℚ))
    (hcs : (((framesOf cap p).map env.predict).getD (np_argmax (final_scores env cap p))
        ⟨none, none, none⟩).class_id = some cs)
    (hcf : (((framesOf cap p).map env.predict).getD (np_argmax (final_scores env cap p))
        ⟨none, none, none⟩).confidence = some conf)
    (hbx : (((framesOf cap p).map env.predict).getD (np_argmax (final_scores env cap p))
        ⟨none, none, none⟩).xyxy = some boxes)
    (hlb : boxes.length = cs.length) (hlc : conf.length = cs.length) :
    select_best_keyframe env cap p =
      some ((framesOf cap p).getD (np_argmax (final_scores env cap p)) default,
        (candidate_indices cap p).getD (np_argmax (final_scores env cap p)) 0,
        final_detections env.person_class_id
          (((framesOf cap p).map env.predict).getD (np_argmax (final_scores env cap p))
            ⟨none, none, none⟩)) ∧
    final_detections env.person_class_id
        (((framesOf cap p).map env.predict).getD (np_argmax (final_scores env cap p))
          ⟨none, none, none⟩) =
      ((((cs.zip boxes).filter (fun q => q.1 == env.person_class_id)).map Prod.snd).enum).map
        (fun q => ⟨q.1 + 1, q.2⟩) := by
  refine ⟨select_some_of env cap p hopen hne hreads, ?_⟩
  have hdets : final_detections env.person_class_id
      (((framesOf cap p).map env.predict).getD (np_argmax (final_scores env cap p))
        ⟨none, none, none⟩) =
      if (cs.map (fun c => c == env.person_class_id)).any id then
        (List.zip (boolIndex boxes (cs.map (fun c => c == env.person_class_id)))
            (boolIndex conf (cs.map (fun c => c == env.person_class_id)))).enum.map
          (fun q => ⟨q.1 + 1, q.2.1⟩)
      else [] := by
    simp only [final_detections, hcs, hcf, hbx]
  rw [hdets]
  by_cases hany : (cs.map (fun c => c == env.person_class_id)).any id = true
  · rw [if_pos hany]
    have hA := boolIndex_eq_filter env.person_class_id cs boxes hlb
    have hB := boolIndex_eq_filter env.person_class_id cs conf hlc
    have hAB : (boolIndex boxes (cs.map (fun c => c == env.person_class_id))).length ≤
        (boolIndex conf (cs.map (fun c => c == env.person_class_id))).length := by
      rw [hA, hB, List.length_map, List.length_map,
        filter_zip_length env.person_class_id cs boxes conf hlb hlc]
    rw [List.enum]
    rw [zip_enumFrom_map (fun i b => (⟨i + 1, b⟩ : FinalDet)) _ _ 0 hAB]
    rw [hA, List.enum]
  · rw [if_neg hany]
    rw [filter_zip_nil_of_no_person env.person_class_id cs boxes hany]
    rfl

/-- Witness for claim C8 on the one-frame test video: the winner is frame 0
and its single person detection is returned with intra-frame rank 1. -/
theorem C8_selected_detections_witness :
    select_best_keyframe envW capOne defaultParams = some ((), 0, [⟨1, (0, 0, 1, 1)⟩]) := by
  have hreads : ∀ i ∈ candidate_indices capOne defaultParams, (capOne.read i).isSome := by
    intro i _
    simp [capOne]
  have hmap : (framesOf capOne defaultParams).map envW.predict = [detsW] := by
    rw [capOne_frames]
    rfl
  have hlen : (final_scores envW capOne defaultParams).length = 1 := by
    rw [final_scores_length_of_reads envW capOne defaultParams hreads, capOne_candidates]
    rfl
  obtain ⟨a, ha⟩ := List.length_eq_one.mp hlen
  have hbest : np_argmax (final_scores envW capOne defaultParams) = 0 := by rw [ha]; rfl
  have hB : ((framesOf capOne defaultParams).map envW.predict).getD
      (np_argmax (final_scores envW capOne defaultParams)) ⟨none, none, none⟩ = detsW := by
    rw [hmap, hbest]
    rfl
  have h := C8_selected_detections envW capOne defaultParams rfl
    (by rw [capOne_candidates]; simp) hreads [1] [2] [(0, 0, 1, 1)]
    (by rw [hB]; rfl) (by rw [hB]; rfl) (by rw [hB]; rfl) rfl rfl
  rw [h.1, hB, hbest, capOne_frames, capOne_candidates]
  rfl

end KeyframeSelector
